import Mathlib

/-!
# Verification of the password-manager credential store

A shallow embedding of `src/password_manager.py` (a local, single-user
password manager).  Pure string helpers model the Python `str` methods the
source uses, a `Json` value type models what `json.load`/`json.dump`
exchange with the backing files, `FileState` models the backing file, and a
typed `DB`/`Item` layer models the dictionary shape that the CRUD
operations (`add_entry`, `edit_entry`, `delete_entry`, `search_entries`)
build and maintain.  Fallible Python code (uncaught `TypeError`,
`ValueError`, `AttributeError`) is modelled with `Option`: `none` is an
unhandled exception.  The interactive prompts are modelled by passing the
entered strings as arguments; `datetime.now()` is modelled by passing the
timestamp string as an argument.
-/

namespace PasswordManager

/-- Model of Python `str.strip()`: drop leading and trailing whitespace. -/
def pyStrip (s : String) : String :=
  ⟨((s.data.dropWhile Char.isWhitespace).reverse.dropWhile Char.isWhitespace).reverse⟩

/-- Model of Python `str.lower()` (characters lowered pointwise). -/
def pyLower (s : String) : String :=
  ⟨s.data.map Char.toLower⟩

/-- Model of the Python substring test `needle in hay` on strings. -/
def pyInStr (needle hay : String) : Bool :=
  decide (needle.data <:+: hay.data)

/-- A non-empty all-digit character list read as a number. -/
def digitsToNat (l : List Char) : Option Nat :=
  if l.isEmpty then none
  else if l.all Char.isDigit then
    some (l.foldl (fun n c => n * 10 + (c.toNat - '0'.toNat)) 0)
  else none

/-- Model of Python `int(s)` on a string: strip whitespace, then an
optional sign followed by at least one digit; `none` is an uncaught
`ValueError` (e.g. `int("abc")`). -/
def pyStrToInt (s : String) : Option Int :=
  match (pyStrip s).data with
  | '-' :: rest => (digitsToNat rest).map (fun n => -(n : Int))
  | '+' :: rest => (digitsToNat rest).map (fun n => (n : Int))
  | l => (digitsToNat l).map (fun n => (n : Int))

/-- JSON values, as produced by `json.load` / consumed by `json.dump`.
Numbers are integers: every number the program itself writes is an `int`,
and no claim exercises float-valued files. -/
inductive Json where
  | null : Json
  | bool (b : Bool) : Json
  | num (n : Int) : Json
  | str (s : String) : Json
  | arr (elems : List Json) : Json
  | obj (fields : List (String × Json)) : Json

/-- Python truthiness (`bool(x)`) of a JSON value. -/
def pyTruthy : Json → Bool
  | .null => false
  | .bool b => b
  | .num n => n != 0
  | .str s => s != ""
  | .arr elems => !elems.isEmpty
  | .obj fields => !fields.isEmpty

/-- Python `==` between a JSON value and a string (a non-`str` value never
equals a `str`). -/
def pyEqStr (j : Json) (s : String) : Bool :=
  match j with
  | .str t => t == s
  | _ => false

/-- Python membership `k in j` for a string key `k`: key lookup on a dict,
element test on a list, substring test on a string; `none` is an uncaught
`TypeError` on the remaining types. -/
def pyMem (k : String) : Json → Option Bool
  | .obj fields => some (fields.any (fun p => p.1 == k))
  | .arr elems => some (elems.any (fun e => pyEqStr e k))
  | .str s => some (pyInStr k s)
  | _ => none

/-- First-match lookup in a dict's field list (Python dicts hold each key
once; `json.load` keeps the last duplicate, yielding such a list). -/
def jsonLookup (fields : List (String × Json)) (k : String) : Option Json :=
  (fields.find? (fun p => p.1 == k)).map (fun p => p.2)

/-- Model of Python `d[k] = v` on a dict: replace the value of an existing
key in place, else append the new key. -/
def jsonSet (fields : List (String × Json)) (k : String) (v : Json) :
    List (String × Json) :=
  match fields with
  | [] => [(k, v)]
  | (k0, v0) :: rest =>
    if k0 == k then (k0, v) :: rest else (k0, v0) :: jsonSet rest k v

/-- Model of Python `int(x)` on a JSON value; `none` is an uncaught
`ValueError`/`TypeError` (e.g. `int("abc")`, `int(None)`). -/
def pyInt : Json → Option Int
  | .num n => some n
  | .str s => pyStrToInt s
  | .bool b => some (if b then 1 else 0)
  | _ => none

/-- The backing file: absent, present but zero-length, present but not
valid JSON (`json.load` raises `JSONDecodeError`), or holding a parsed
JSON value.  `write_json` always leaves the file in the `parsed` state;
the serialize/parse fidelity of `json.dump`/`json.load` is modelled by
storing the JSON value itself. -/
inductive FileState where
  | absent : FileState
  | empty : FileState
  | unparsable : FileState
  | parsed (j : Json) : FileState

/-- `read_json(path, default)` (source lines 29-36): the default on an
absent or zero-length file, the default again when `json.load` raises
`JSONDecodeError`, else the parsed value. -/
def read_json (f : FileState) (dflt : Json) : Json :=
  match f with
  | .absent => dflt
  | .empty => dflt
  | .unparsable => dflt
  | .parsed j => j

/-- `write_json(path, data)` (source lines 38-40): the file now parses to
exactly the written value. -/
def write_json (j : Json) : FileState :=
  .parsed j

/-- The fresh store dict `{"next_id": 1, "items": []}` built by `load_db`. -/
def freshJson : Json :=
  .obj [("next_id", .num 1), ("items", .arr [])]

/-- `load_db()` (source lines 103-108): read the store file with default
`{}`; if the result is falsy or lacks the `"items"` or `"next_id"` key,
replace it with a fresh store and persist that store.  Returns the store
value and the resulting file state; `none` is an uncaught `TypeError`
from the membership tests. -/
def load_db (f : FileState) : Option (Json × FileState) :=
  let db := read_json f (.obj [])
  if !pyTruthy db then some (freshJson, write_json freshJson)
  else
    match pyMem "items" db with
    | none => none
    | some hasItems =>
      if !hasItems then some (freshJson, write_json freshJson)
      else
        match pyMem "next_id" db with
        | none => none
        | some hasNext =>
          if !hasNext then some (freshJson, write_json freshJson)
          else some (db, f)

/-- `next_id(db)` (source lines 113-116) on the raw dict:
`nid = int(db.get("next_id", 1)); db["next_id"] = nid + 1; return nid`.
`none` is an uncaught exception (`ValueError` from `int`, or
`AttributeError` when the loaded value is not a dict). -/
def next_id_raw (db : Json) : Option (Int × Json) :=
  match db with
  | .obj fields =>
    match pyInt ((jsonLookup fields "next_id").getD (.num 1)) with
    | none => none
    | some nid => some (nid, .obj (jsonSet fields "next_id" (.num (nid + 1))))
  | _ => none

/-- One credential record, the dict built by `add_entry`
(source lines 135-144). -/
structure Item where
  id : Int
  name : String
  username : String
  password : String
  auth_key : String
  website : String
  notes : String
  updated_at : String
  deriving DecidableEq, Repr

/-- The typed store: the `{"next_id": …, "items": […]}` dict shape that
`load_db` creates fresh and every CRUD operation maintains. -/
structure DB where
  next_id : Int
  items : List Item
  deriving DecidableEq, Repr

/-- The fresh store `{"next_id": 1, "items": []}`, typed. -/
def freshDB : DB :=
  ⟨1, []⟩

/-- Serialization of a record to the JSON dict `add_entry` builds, keys in
source order (lines 135-144). -/
def encodeItem (it : Item) : Json :=
  .obj [("id", .num it.id), ("name", .str it.name),
        ("username", .str it.username), ("password", .str it.password),
        ("auth_key", .str it.auth_key), ("website", .str it.website),
        ("notes", .str it.notes), ("updated_at", .str it.updated_at)]

/-- Serialization of the store to the JSON dict `save_db` writes, keys in
the order `load_db` creates them (line 106). -/
def encodeDB (db : DB) : Json :=
  .obj [("next_id", .num db.next_id), ("items", .arr (db.items.map encodeItem))]

/-- `save_db(db)` (source lines 110-111): rewrite the whole store file. -/
def save_db (db : DB) : FileState :=
  write_json (encodeDB db)

/-- Bridge back from JSON to the typed record: a dict holding exactly the
integer `id` and the seven string fields of a record. -/
def decodeItem (j : Json) : Option Item :=
  match j with
  | .obj fields =>
    match jsonLookup fields "id", jsonLookup fields "name",
        jsonLookup fields "username", jsonLookup fields "password",
        jsonLookup fields "auth_key", jsonLookup fields "website",
        jsonLookup fields "notes", jsonLookup fields "updated_at" with
    | some (.num id), some (.str name), some (.str username),
      some (.str password), some (.str auth_key), some (.str website),
      some (.str notes), some (.str updated_at) =>
      some ⟨id, name, username, password, auth_key, website, notes, updated_at⟩
    | _, _, _, _, _, _, _, _ => none
  | _ => none

/-- Decode each element of a JSON list as a record. -/
def decodeItems : List Json → Option (List Item)
  | [] => some []
  | j :: rest =>
    match decodeItem j, decodeItems rest with
    | some it, some its => some (it :: its)
    | _, _ => none

/-- Bridge back from JSON to the typed store: a dict with an integer
`next_id` and a list of decodable `items`. -/
def decodeDB (j : Json) : Option DB :=
  match j with
  | .obj fields =>
    match jsonLookup fields "next_id", jsonLookup fields "items" with
    | some (.num nid), some (.arr elems) =>
      match decodeItems elems with
      | some items => some ⟨nid, items⟩
      | none => none
    | _, _ => none
  | _ => none

/-- `load_db` followed by the typed bridge: the typed store a caller works
on after `Load`; `none` when load crashes or the loaded dict does not
have the record shape. -/
def loadTyped (f : FileState) : Option (DB × FileState) :=
  match load_db f with
  | none => none
  | some (j, f1) =>
    match decodeDB j with
    | none => none
    | some db => some (db, f1)

/-- `find_by_id(db, eid)` (source lines 118-122): first record whose `id`
equals `eid`. -/
def find_by_id (db : DB) (eid : Int) : Option Item :=
  db.items.find? (fun it => it.id == eid)

/-- Outcome of a mutating operation: the store afterwards, the reported
result, and whether `save_db` was called. -/
structure AddOut where
  db : DB
  newId : Int
  saved : Bool
  deriving DecidableEq, Repr

/-- `add_entry(db)` (source lines 126-147): strip the six entered fields,
allocate `id = next_id` (incrementing it), append the new record with
`updated_at = now`, save.  The entered strings and the clock are
arguments. -/
def add_entry (db : DB) (nameIn usernameIn passwordIn authKeyIn websiteIn
    notesIn now : String) : AddOut :=
  let nid := db.next_id
  let item : Item :=
    ⟨nid, pyStrip nameIn, pyStrip usernameIn, pyStrip passwordIn,
     pyStrip authKeyIn, pyStrip websiteIn, pyStrip notesIn, now⟩
  ⟨⟨nid + 1, db.items ++ [item]⟩, nid, true⟩

inductive EditResult where
  | notFound : EditResult
  | updated : EditResult
  | noChanges : EditResult
  deriving DecidableEq, Repr

structure EditOut where
  db : DB
  res : EditResult
  saved : Bool
  deriving DecidableEq, Repr

/-- Replace the first list element satisfying `p` by its image under `f`:
the in-place mutation of the dict `find_by_id` returned. -/
def updateFirst (p : Item → Bool) (f : Item → Item) : List Item → List Item
  | [] => []
  | x :: xs => if p x then f x :: xs else x :: updateFirst p f xs

/-- The field updates of `edit_entry` (source lines 226-234) applied to
the found record: each non-empty stripped input replaces its field, and
`updated_at` is set (this function is only reached when some input is
non-empty). -/
def applyEdit (name username password auth_key website notes now : String)
    (it : Item) : Item :=
  { it with
    name := if name != "" then name else it.name
    username := if username != "" then username else it.username
    password := if password != "" then password else it.password
    auth_key := if auth_key != "" then auth_key else it.auth_key
    website := if website != "" then website else it.website
    notes := if notes != "" then notes else it.notes
    updated_at := now }

/-- `edit_entry(db)` after the identifier has been parsed (source lines
198-238): find the record; strip each entered value; the new password is
read only when the change-password answer strips-and-lowers to `"y"`,
otherwise it is `""`; a field is assigned exactly when its value is
non-empty, and `changed` is set by any such assignment; when `changed`,
stamp `updated_at = now` and save, else report no changes.  The entered
strings and the clock are arguments. -/
def edit_entry_core (db : DB) (eid : Int) (nameIn usernameIn pwAnswer pwIn
    authKeyIn websiteIn notesIn now : String) : EditOut :=
  match find_by_id db eid with
  | none => ⟨db, .notFound, false⟩
  | some _ =>
    let name := pyStrip nameIn
    let username := pyStrip usernameIn
    let password := if pyLower (pyStrip pwAnswer) == "y" then pyStrip pwIn else ""
    let auth_key := pyStrip authKeyIn
    let website := pyStrip websiteIn
    let notes := pyStrip notesIn
    let changed := name != "" || username != "" || password != "" ||
      auth_key != "" || website != "" || notes != ""
    if changed then
      ⟨⟨db.next_id,
        updateFirst (fun it => it.id == eid)
          (applyEdit name username password auth_key website notes now)
          db.items⟩,
       .updated, true⟩
    else ⟨db, .noChanges, false⟩

/-- `edit_entry` including the identifier prompt (source lines 193-197):
`int(input())` with `ValueError` reported as an invalid identifier. -/
def edit_entry (db : DB) (eidIn nameIn usernameIn pwAnswer pwIn authKeyIn
    websiteIn notesIn now : String) : EditOut :=
  match pyStrToInt eidIn with
  | none => ⟨db, .notFound, false⟩
  | some eid => edit_entry_core db eid nameIn usernameIn pwAnswer pwIn
      authKeyIn websiteIn notesIn now

inductive DeleteResult where
  | notFound : DeleteResult
  | cancelled : DeleteResult
  | deleted : DeleteResult
  deriving DecidableEq, Repr

structure DeleteOut where
  db : DB
  res : DeleteResult
  saved : Bool
  deriving DecidableEq, Repr

/-- `delete_entry(db)` after the identifier has been parsed (source lines
246-256): not found when no record has the identifier; otherwise the
confirmation answer is stripped and lowered, and only the exact answer
`"y"` deletes (filtering out every record with that `id`) and saves; any
other answer cancels. -/
def delete_entry_core (db : DB) (eid : Int) (confirmIn : String) : DeleteOut :=
  match find_by_id db eid with
  | none => ⟨db, .notFound, false⟩
  | some _ =>
    let confirm := pyLower (pyStrip confirmIn)
    if confirm == "y" then
      ⟨⟨db.next_id, db.items.filter (fun it => !(it.id == eid))⟩, .deleted, true⟩
    else ⟨db, .cancelled, false⟩

/-- The haystack `search_entries` builds for one record (source lines
177-182): the name, username, website and notes joined by single spaces,
lowered. -/
def searchHaystack (it : Item) : String :=
  pyLower (it.name ++ " " ++ it.username ++ " " ++ it.website ++ " " ++ it.notes)

/-- The per-record match test of `search_entries` (line 183): substring
test of the (already lowered) keyword in the record's haystack. -/
def itemMatches (keyword : String) (it : Item) : Bool :=
  pyInStr keyword (searchHaystack it)

/-- The accumulation loop of `search_entries` (lines 175-184), collecting
matching records in store order. -/
def searchLoop (keyword : String) : List Item → List Item
  | [] => []
  | it :: rest =>
    if itemMatches keyword it then it :: searchLoop keyword rest
    else searchLoop keyword rest

/-- Outcome of a search: the empty-keyword rejection, or the (possibly
empty) list of matching records. -/
inductive SearchOut where
  | emptyKeyword : SearchOut
  | results (items : List Item) : SearchOut
  deriving DecidableEq, Repr

/-- `search_entries(db)` (source lines 170-190): strip and lower the
entered keyword; reject it when empty; otherwise return the records whose
haystack contains it (an empty result list is the "no matching entries"
report, not an error). -/
def search_entries (db : DB) (keywordIn : String) : SearchOut :=
  let keyword := pyLower (pyStrip keywordIn)
  if keyword == "" then .emptyKeyword
  else .results (searchLoop keyword db.items)

/-! ## Registration and login (ConfigGate) -/

/-- The master config: `cfg.get("master_hash")`, `None` when the config
file is absent/empty/unparsable or lacks the key. -/
structure Cfg where
  masterHash : Option String
  deriving DecidableEq, Repr

/-- Python truthiness of `cfg.get("master_hash")`: present and non-empty. -/
def hasMaster (cfg : Cfg) : Bool :=
  match cfg.masterHash with
  | none => false
  | some s => s != ""

/-- The `while True` loop of `ensure_registered` (source lines 72-81) over
the successive pairs of entered passwords: skip a pair whose first entry
strips to empty or whose entries differ, accept the first valid pair and
hash its (stripped) first entry; `none` when the supplied input runs out
(the real loop would still be blocked at the prompt).  The digest
function (`sha256`) is a parameter of the model. -/
def registerLoop (digest : String → String) :
    List (String × String) → Option String
  | [] => none
  | (in1, in2) :: rest =>
    let pw1 := pyStrip in1
    let pw2 := pyStrip in2
    if pw1 == "" then registerLoop digest rest
    else if pw1 != pw2 then registerLoop digest rest
    else some (digest pw1)

/-- `ensure_registered()` (source lines 67-84): keep an existing master
hash untouched, otherwise run the registration loop and store the digest. -/
def ensure_registered (digest : String → String) (cfg : Cfg)
    (entries : List (String × String)) : Option Cfg :=
  if hasMaster cfg then some cfg
  else
    match registerLoop digest entries with
    | none => none
    | some h => some ⟨some h⟩

inductive LoginResult where
  | noMaster : LoginResult
  | success (attempt : Nat) : LoginResult
  | lockedOut : LoginResult
  deriving DecidableEq, Repr

/-- The `for _ in range(3)` loop of `login` (source lines 92-98): at
attempt index `i` with `fuel` attempts left, strip the entered password,
compare its digest to the stored hash, succeed on a match, and report the
lockout (`sys.exit(1)`) when the fuel runs out. -/
def loginLoop (digest : String → String) (stored : String)
    (attempts : Nat → String) : Nat → Nat → LoginResult
  | _, 0 => .lockedOut
  | i, fuel + 1 =>
    if digest (pyStrip (attempts i)) == stored then .success i
    else loginLoop digest stored attempts (i + 1) fuel

/-- `login()` (source lines 86-99): exit when no (truthy) master hash is
stored, else give the entered passwords three attempts. -/
def login (digest : String → String) (cfg : Cfg)
    (attempts : Nat → String) : LoginResult :=
  match cfg.masterHash with
  | none => .noMaster
  | some stored =>
    if stored == "" then .noMaster
    else loginLoop digest stored attempts 0 3

/-- The store-file effect of `main()` (source lines 291-295): after
registration, a failed `login` calls `sys.exit(1)`, so the store file is
never touched; only a successful login reaches `load_db`. -/
def main_db_file (digest : String → String) (cfg : Cfg)
    (attempts : Nat → String) (dbFile : FileState) : Option FileState :=
  match login digest cfg attempts with
  | .success _ =>
    match load_db dbFile with
    | none => none
    | some (_, f1) => some f1
  | _ => some dbFile

/-! ## Operation traces (for the identifier-allocation claims) -/

/-- One store operation of a session: an `add_entry` with its six entered
field values and timestamp, or a `delete_entry` with its identifier and
confirmation answer. -/
inductive Op where
  | add (nameIn usernameIn passwordIn authKeyIn websiteIn notesIn now : String) : Op
  | del (eid : Int) (confirmIn : String) : Op

/-- Run one operation on the store (the menu loop dispatch, lines 273-282,
restricted to the mutating operations). -/
def runOp (db : DB) : Op → DB
  | .add n u p a w no t => (add_entry db n u p a w no t).db
  | .del eid c => (delete_entry_core db eid c).db

/-- Run a sequence of operations left to right. -/
def runOps (db : DB) : List Op → DB
  | [] => db
  | op :: ops => runOps (runOp db op) ops

/-- The identifiers the adds of a sequence assign, in order. -/
def assignedIds (db : DB) : List Op → List Int
  | [] => []
  | .add n u p a w no t :: ops =>
    let out := add_entry db n u p a w no t
    out.newId :: assignedIds out.db ops
  | .del eid c :: ops => assignedIds (delete_entry_core db eid c).db ops

/-- The store invariant of the spec: `next_id` is strictly greater than
every record's `id`. -/
def storeInv (db : DB) : Prop :=
  ∀ it ∈ db.items, it.id < db.next_id

instance : DecidablePred storeInv := fun db =>
  inferInstanceAs (Decidable (∀ it ∈ db.items, it.id < db.next_id))

/-- `add_entry` on the raw loaded dict (source lines 126-147), for store
values `load_db` passed through unvalidated: `next_id` may raise on a
non-integer value, and `db["items"].append(item)` may raise when the key
is missing or its value is not a list; `none` is such an uncaught
exception. -/
def add_entry_raw (db : Json) (nameIn usernameIn passwordIn authKeyIn
    websiteIn notesIn now : String) : Option Json :=
  match next_id_raw db with
  | none => none
  | some (nid, db1) =>
    match db1 with
    | .obj fields =>
      match jsonLookup fields "items" with
      | some (.arr elems) =>
        some (.obj (jsonSet fields "items" (.arr (elems ++
          [encodeItem ⟨nid, pyStrip nameIn, pyStrip usernameIn,
            pyStrip passwordIn, pyStrip authKeyIn, pyStrip websiteIn,
            pyStrip notesIn, now⟩]))))
      | _ => none
    | _ => none

/-- A parsable store file whose `next_id` value is a non-numeric string:
it has both required keys, so `load_db` passes it through. -/
def badNextIdJson : Json :=
  .obj [("next_id", .str "abc"), ("items", .arr [])]

/-- A parsable store file that breaks the `next_id > id` invariant
(`next_id = 1` but a record has `id = 5`); it has both required keys, so
`load_db` passes it through. -/
def badInvJson : Json :=
  .obj [("next_id", .num 1),
        ("items", .arr [encodeItem ⟨5, "", "", "", "", "", "", ""⟩])]

/-- A string neither starts nor ends with a whitespace character. -/
def noEdgeWhitespace (s : String) : Prop :=
  (∀ c, s.data.head? = some c → ¬ c.isWhitespace) ∧
  (∀ c, s.data.getLast? = some c → ¬ c.isWhitespace)

/-- Every text field of every stored record is free of leading and
trailing whitespace. -/
def trimInv (db : DB) : Prop :=
  ∀ it ∈ db.items, noEdgeWhitespace it.name ∧ noEdgeWhitespace it.username ∧
    noEdgeWhitespace it.password ∧ noEdgeWhitespace it.auth_key ∧
    noEdgeWhitespace it.website ∧ noEdgeWhitespace it.notes

/-! ## Shared lemmas -/

theorem mem_updateFirst {p : Item → Bool} {f : Item → Item} {l : List Item}
    {x : Item} (h : x ∈ updateFirst p f l) : x ∈ l ∨ ∃ y ∈ l, x = f y := by
  induction l with
  | nil => simp [updateFirst] at h
  | cons a as ih =>
    rw [updateFirst] at h
    split at h
    · rcases List.mem_cons.mp h with h | h
      · exact Or.inr ⟨a, List.mem_cons_self a as, h⟩
      · exact Or.inl (List.mem_cons_of_mem _ h)
    · rcases List.mem_cons.mp h with h | h
      · exact Or.inl (h ▸ List.mem_cons_self a as)
      · rcases ih h with h1 | ⟨y, hy, hxy⟩
        · exact Or.inl (List.mem_cons_of_mem _ h1)
        · exact Or.inr ⟨y, List.mem_cons_of_mem _ hy, hxy⟩

theorem find?_split {p : Item → Bool} {l : List Item} {a : Item}
    (h : l.find? p = some a) :
    ∃ l1 l2, l = l1 ++ a :: l2 ∧ (∀ x ∈ l1, p x = false) ∧ p a = true := by
  induction l with
  | nil => simp [List.find?] at h
  | cons x xs ih =>
    by_cases hp : p x
    · rw [List.find?_cons_of_pos _ hp] at h
      obtain rfl : x = a := by injection h
      exact ⟨[], xs, rfl, by simp, hp⟩
    · rw [List.find?_cons_of_neg _ (by simpa using hp)] at h
      obtain ⟨l1, l2, rfl, hl1, ha⟩ := ih h
      exact ⟨x :: l1, l2, rfl, by
        intro z hz
        rcases List.mem_cons.mp hz with rfl | hz
        · simpa using hp
        · exact hl1 z hz, ha⟩

theorem updateFirst_append {p : Item → Bool} {f : Item → Item} {l1 : List Item}
    {a : Item} (l2 : List Item) (h1 : ∀ x ∈ l1, p x = false) (ha : p a = true) :
    updateFirst p f (l1 ++ a :: l2) = l1 ++ f a :: l2 := by
  induction l1 with
  | nil => simp [updateFirst, ha]
  | cons x xs ih =>
    have hx : p x = false := h1 x (List.mem_cons_self x xs)
    simp only [List.cons_append, updateFirst, hx]
    simp only [Bool.false_eq_true, if_false, List.cons.injEq, true_and]
    exact ih (fun z hz => h1 z (List.mem_cons_of_mem _ hz))

theorem applyEdit_id (name username password auth_key website notes now : String)
    (it : Item) :
    (applyEdit name username password auth_key website notes now it).id = it.id :=
  rfl

theorem edit_entry_core_next_id (db : DB) (eid : Int)
    (nameIn usernameIn pwAnswer pwIn authKeyIn websiteIn notesIn now : String) :
    (edit_entry_core db eid nameIn usernameIn pwAnswer pwIn authKeyIn websiteIn
      notesIn now).db.next_id = db.next_id := by
  rw [edit_entry_core]
  cases find_by_id db eid <;> simp
  split <;> rfl

theorem delete_entry_core_next_id (db : DB) (eid : Int) (confirmIn : String) :
    (delete_entry_core db eid confirmIn).db.next_id = db.next_id := by
  rw [delete_entry_core]
  cases find_by_id db eid <;> simp
  split <;> rfl

theorem storeInv_fresh : storeInv freshDB := by
  intro it h
  simp [freshDB] at h

theorem storeInv_add {db : DB} (h : storeInv db)
    (nameIn usernameIn passwordIn authKeyIn websiteIn notesIn now : String) :
    storeInv (add_entry db nameIn usernameIn passwordIn authKeyIn websiteIn
      notesIn now).db := by
  intro it hit
  show it.id < db.next_id + 1
  rcases List.mem_append.mp hit with hit | hit
  · exact lt_trans (h it hit) (by omega)
  · rw [List.mem_singleton] at hit
    subst hit
    show db.next_id < db.next_id + 1
    omega

/-- Everything in the store after an edit is either an untouched old
record or the image of an old record under the field updates — with the
new password value either the stripped input (change confirmed) or the
empty placeholder (change declined). -/
theorem mem_edit_items {db : DB} {eid : Int}
    {nameIn usernameIn pwAnswer pwIn authKeyIn websiteIn notesIn now : String}
    {x : Item}
    (hx : x ∈ (edit_entry_core db eid nameIn usernameIn pwAnswer pwIn authKeyIn
      websiteIn notesIn now).db.items) :
    x ∈ db.items ∨ ∃ pw y, (pw = pyStrip pwIn ∨ pw = "") ∧ y ∈ db.items ∧
      x = applyEdit (pyStrip nameIn) (pyStrip usernameIn) pw (pyStrip authKeyIn)
        (pyStrip websiteIn) (pyStrip notesIn) now y := by
  rw [edit_entry_core] at hx
  cases hf : find_by_id db eid with
  | none => rw [hf] at hx; exact Or.inl hx
  | some a =>
    rw [hf] at hx
    simp only at hx
    split at hx
    · split at hx
      · rcases mem_updateFirst hx with hmem | ⟨y, hy, rfl⟩
        · exact Or.inl hmem
        · exact Or.inr ⟨pyStrip pwIn, y, Or.inl rfl, hy, rfl⟩
      · exact Or.inl hx
    · split at hx
      · rcases mem_updateFirst hx with hmem | ⟨y, hy, rfl⟩
        · exact Or.inl hmem
        · exact Or.inr ⟨"", y, Or.inr rfl, hy, rfl⟩
      · exact Or.inl hx

theorem storeInv_edit {db : DB} (h : storeInv db) (eid : Int)
    (nameIn usernameIn pwAnswer pwIn authKeyIn websiteIn notesIn now : String) :
    storeInv (edit_entry_core db eid nameIn usernameIn pwAnswer pwIn authKeyIn
      websiteIn notesIn now).db := by
  intro it hit
  rw [edit_entry_core_next_id]
  rcases mem_edit_items hit with hmem | ⟨pw, y, _, hy, rfl⟩
  · exact h it hmem
  · rw [applyEdit_id]
    exact h y hy

theorem storeInv_delete {db : DB} (h : storeInv db) (eid : Int)
    (confirmIn : String) :
    storeInv (delete_entry_core db eid confirmIn).db := by
  intro it hit
  rw [delete_entry_core_next_id]
  rw [delete_entry_core] at hit
  cases hf : find_by_id db eid with
  | none => rw [hf] at hit; exact h it hit
  | some a =>
    rw [hf] at hit
    simp only at hit
    split at hit
    · exact h it (List.mem_of_mem_filter hit)
    · exact h it hit

/-! ## C7: self-healing load -/

/-- C7: whenever the backing store file is absent, empty, or fails to
parse, `load_db` returns the fresh store (`next_id = 1`, no items),
persists it to the backing file, and raises no error (the result is
`some`, never the `none` that models an uncaught exception); the fresh
JSON decodes to the fresh typed store. -/
theorem load_db_self_heals (f : FileState)
    (h : f = FileState.absent ∨ f = FileState.empty ∨ f = FileState.unparsable) :
    load_db f = some (freshJson, FileState.parsed freshJson) ∧
    decodeDB freshJson = some freshDB := by
  rcases h with h | h | h <;> subst h <;> exact ⟨rfl, rfl⟩

/-- Witness for C7 at the absent file. -/
theorem load_db_self_heals_witness :
    load_db FileState.absent = some (freshJson, FileState.parsed freshJson) ∧
    decodeDB freshJson = some freshDB :=
  load_db_self_heals FileState.absent (Or.inl rfl)

/-! ## C6: persistence round trip -/

theorem decodeItem_encodeItem (it : Item) : decodeItem (encodeItem it) = some it :=
  rfl

theorem decodeItems_encodeItem (l : List Item) :
    decodeItems (l.map encodeItem) = some l := by
  induction l with
  | nil => rfl
  | cons x xs ih => simp [decodeItems, decodeItem_encodeItem, ih]

/-- C6: `save_db` followed by `load_db` reproduces an equal store: the
saved JSON is loaded back unchanged (no reset, no error) and decodes to
the very store that was saved — same `next_id`, same records with
identical fields — for every store value, empty or not. -/
theorem save_load_roundtrip (db : DB) :
    load_db (save_db db) = some (encodeDB db, save_db db) ∧
    decodeDB (encodeDB db) = some db := by
  constructor
  · simp [load_db, save_db, write_json, read_json, encodeDB, pyTruthy, pyMem]
  · simp [decodeDB, encodeDB, jsonLookup, List.find?, decodeItems_encodeItem]

/-! ## C2: the next_id invariant (corrected) -/

/-- Refutation of C2 as stated: `load_db` does not validate a parsable
backing file beyond the presence of the two keys, so a file with
`next_id = 1` and a record with `id = 5` is returned unchanged — the
store immediately after load violates `next_id > id`. -/
theorem load_db_inv_counterexample :
    load_db (FileState.parsed badInvJson) =
      some (badInvJson, FileState.parsed badInvJson) ∧
    decodeDB badInvJson = some ⟨1, [⟨5, "", "", "", "", "", "", ""⟩]⟩ ∧
    ¬ storeInv ⟨1, [⟨5, "", "", "", "", "", "", ""⟩]⟩ := by
  refine ⟨rfl, rfl, ?_⟩
  intro h
  exact absurd (h ⟨5, "", "", "", "", "", "", ""⟩ (List.mem_singleton.mpr rfl))
    (by decide)

/-- C2 (amended): the store invariant `next_id > id` for every record
holds for the fresh store that `Load` builds from an absent, empty, or
unparsable backing file, and every operation — Add, Edit, Delete —
preserves it; but a parsable backing file holding both keys is returned
by `Load` unvalidated, so the invariant need not hold for those. -/
theorem storeInv_maintained :
    storeInv freshDB ∧
    (∀ f, (f = FileState.absent ∨ f = FileState.empty ∨
        f = FileState.unparsable) →
      loadTyped f = some (freshDB, FileState.parsed freshJson)) ∧
    (∀ db nameIn usernameIn passwordIn authKeyIn websiteIn notesIn now,
      storeInv db →
      storeInv (add_entry db nameIn usernameIn passwordIn authKeyIn websiteIn
        notesIn now).db) ∧
    (∀ db eid nameIn usernameIn pwAnswer pwIn authKeyIn websiteIn notesIn now,
      storeInv db →
      storeInv (edit_entry_core db eid nameIn usernameIn pwAnswer pwIn authKeyIn
        websiteIn notesIn now).db) ∧
    (∀ db eid confirmIn,
      storeInv db → storeInv (delete_entry_core db eid confirmIn).db) := by
  refine ⟨storeInv_fresh, ?_, ?_, ?_, ?_⟩
  · intro f h
    rcases h with h | h | h <;> subst h <;> rfl
  · intro db n u p a w no t h
    exact storeInv_add h n u p a w no t
  · intro db eid n u pa p a w no t h
    exact storeInv_edit h eid n u pa p a w no t
  · intro db eid c h
    exact storeInv_delete h eid c

/-- Witness for the amended C2: adding to the fresh store keeps the
invariant. -/
theorem storeInv_maintained_witness :
    storeInv (add_entry freshDB "Gmail" "alice" "p1" "" "" "" "t0").db :=
  storeInv_maintained.2.2.1 freshDB "Gmail" "alice" "p1" "" "" "" "t0"
    storeInv_fresh

/-! ## C10: load validates key presence only -/

/-- C10: a successfully parsed backing file is accepted by `load_db` as
soon as the `"items"` and `"next_id"` keys are present, whatever their
values; in particular the file `{"next_id": "abc", "items": []}` is
returned unchanged (no self-healing reset), and a subsequent Add on it
raises an uncaught error inside `next_id` when `int("abc")` fails. -/
theorem load_db_validates_keys_only (fields : List (String × Json))
    (hItems : pyMem "items" (.obj fields) = some true)
    (hNext : pyMem "next_id" (.obj fields) = some true) :
    load_db (FileState.parsed (.obj fields)) =
      some (.obj fields, FileState.parsed (.obj fields)) ∧
    load_db (FileState.parsed badNextIdJson) =
      some (badNextIdJson, FileState.parsed badNextIdJson) ∧
    next_id_raw badNextIdJson = none ∧
    (∀ nameIn usernameIn passwordIn authKeyIn websiteIn notesIn now,
      add_entry_raw badNextIdJson nameIn usernameIn passwordIn authKeyIn
        websiteIn notesIn now = none) := by
  refine ⟨?_, rfl, rfl, fun _ _ _ _ _ _ _ => rfl⟩
  cases fields with
  | nil => simp [pyMem] at hItems
  | cons hd tl =>
    simp [load_db, read_json, pyTruthy, hItems, hNext]

/-- Witness for C10 at the very file `{"next_id": "abc", "items": []}`. -/
theorem load_db_validates_keys_only_witness :
    load_db (FileState.parsed badNextIdJson) =
      some (badNextIdJson, FileState.parsed badNextIdJson) :=
  (load_db_validates_keys_only [("next_id", .str "abc"), ("items", .arr [])]
    (by rfl) (by rfl)).1

/-! ## C8: delete semantics -/

/-- C8: `Delete` reports "not found" and changes nothing when no record
has the identifier; a confirmation answer other than `y` (after stripping
and lowering) is a no-op reporting "cancelled"; the answer `y` removes
exactly the records with that identifier, keeps every other record and
`next_id` unchanged, and saves. -/
theorem delete_entry_correct (db : DB) (eid : Int) (confirmIn : String) :
    (find_by_id db eid = none →
      delete_entry_core db eid confirmIn = ⟨db, .notFound, false⟩) ∧
    (find_by_id db eid ≠ none → pyLower (pyStrip confirmIn) ≠ "y" →
      delete_entry_core db eid confirmIn = ⟨db, .cancelled, false⟩) ∧
    (find_by_id db eid ≠ none → pyLower (pyStrip confirmIn) = "y" →
      (delete_entry_core db eid confirmIn).res = .deleted ∧
      (delete_entry_core db eid confirmIn).saved = true ∧
      (delete_entry_core db eid confirmIn).db.next_id = db.next_id ∧
      (∀ x, x ∈ (delete_entry_core db eid confirmIn).db.items ↔
        x ∈ db.items ∧ x.id ≠ eid)) := by
  refine ⟨?_, ?_, ?_⟩
  · intro h
    rw [delete_entry_core, h]
  · intro h1 h2
    rw [delete_entry_core]
    cases hf : find_by_id db eid with
    | none => exact absurd hf h1
    | some a =>
      simp only
      rw [beq_eq_false_iff_ne.mpr h2]
      rfl
  · intro h1 h2
    rw [delete_entry_core]
    cases hf : find_by_id db eid with
    | none => exact absurd hf h1
    | some a =>
      simp only
      rw [show (pyLower (pyStrip confirmIn) == "y") = true from beq_iff_eq.mpr h2]
      refine ⟨rfl, rfl, rfl, ?_⟩
      intro x
      simp [List.mem_filter]

/-- Witness for C8: deleting id 1 with answer `" Y "` from a two-record
store removes it, reports "deleted", and keeps `next_id`. -/
theorem delete_entry_correct_witness :
    (delete_entry_core ⟨3, [⟨1, "a", "", "", "", "", "", "t"⟩,
        ⟨2, "b", "", "", "", "", "", "t"⟩]⟩ 1 " Y ").res =
      DeleteResult.deleted ∧
    (delete_entry_core ⟨3, [⟨1, "a", "", "", "", "", "", "t"⟩,
        ⟨2, "b", "", "", "", "", "", "t"⟩]⟩ 1 " Y ").db.next_id = 3 := by
  have h := (delete_entry_correct ⟨3, [⟨1, "a", "", "", "", "", "", "t"⟩,
    ⟨2, "b", "", "", "", "", "", "t"⟩]⟩ 1 " Y ").2.2 (by decide) (by decide)
  exact ⟨h.1, h.2.2.1⟩

/-! ## C4: search semantics -/

theorem mem_searchLoop (keyword : String) (l : List Item) (x : Item) :
    x ∈ searchLoop keyword l ↔ x ∈ l ∧ itemMatches keyword x = true := by
  induction l with
  | nil => simp [searchLoop]
  | cons a as ih =>
    rw [searchLoop]
    by_cases hm : itemMatches keyword a = true
    · rw [if_pos hm]
      simp only [List.mem_cons, ih]
      constructor
      · rintro (rfl | ⟨hx, hmx⟩)
        exacts [⟨Or.inl rfl, hm⟩, ⟨Or.inr hx, hmx⟩]
      · rintro ⟨rfl | hx, hmx⟩
        exacts [Or.inl rfl, Or.inr ⟨hx, hmx⟩]
    · rw [if_neg hm]
      rw [ih, List.mem_cons]
      constructor
      · rintro ⟨hx, hmx⟩
        exact ⟨Or.inr hx, hmx⟩
      · rintro ⟨rfl | hx, hmx⟩
        exacts [absurd hmx hm, ⟨hx, hmx⟩]

theorem pyLower_eq_empty_iff (s : String) : pyLower s = "" ↔ s = "" := by
  cases s with
  | mk l =>
    constructor
    · intro h
      have h1 : l.map Char.toLower = [] := congrArg String.data h
      have h2 : l = [] := List.map_eq_nil_iff.mp h1
      rw [h2]
    · intro h
      rw [h]
      rfl

/-- C4: `Search` strips and lowers the keyword; an empty or
whitespace-only keyword is rejected with an error and no results; any
other keyword returns exactly the records whose lowered
name/username/website/notes haystack contains it, as an explicit (possibly
empty) result list; and the match ignores the `password` and `auth_key`
fields entirely. -/
theorem search_entries_correct (db : DB) (keywordIn : String) :
    (pyStrip keywordIn = "" →
      search_entries db keywordIn = SearchOut.emptyKeyword) ∧
    (pyStrip keywordIn ≠ "" →
      ∃ l, search_entries db keywordIn = SearchOut.results l ∧
        (∀ x, x ∈ l ↔ x ∈ db.items ∧
          itemMatches (pyLower (pyStrip keywordIn)) x = true) ∧
        ((∀ x ∈ db.items, itemMatches (pyLower (pyStrip keywordIn)) x = false) →
          l = [])) ∧
    (∀ k x pw ak, itemMatches k { x with password := pw, auth_key := ak } =
      itemMatches k x) := by
  refine ⟨?_, ?_, fun k x pw ak => rfl⟩
  · intro h
    rw [search_entries]
    simp [h, pyLower]
  · intro h
    have hne : pyLower (pyStrip keywordIn) ≠ "" :=
      fun hc => h ((pyLower_eq_empty_iff _).mp hc)
    rw [search_entries]
    simp only [beq_eq_false_iff_ne.mpr hne, Bool.false_eq_true, if_false]
    refine ⟨searchLoop (pyLower (pyStrip keywordIn)) db.items, rfl,
      fun x => mem_searchLoop _ _ _, ?_⟩
    intro hall
    refine List.eq_nil_iff_forall_not_mem.mpr (fun x hx => ?_)
    obtain ⟨hmem, hmatch⟩ := (mem_searchLoop _ _ _).mp hx
    rw [hall x hmem] at hmatch
    exact Bool.false_ne_true hmatch

/-- Witness for C4: a whitespace-only keyword is rejected. -/
theorem search_entries_correct_witness :
    search_entries ⟨2, [⟨1, "Gmail", "alice", "p1", "", "", "", "t"⟩]⟩ "   " =
      SearchOut.emptyKeyword :=
  (search_entries_correct ⟨2, [⟨1, "Gmail", "alice", "p1", "", "", "", "t"⟩]⟩
    "   ").1 (by decide)

/-! ## C3: edit semantics (corrected) -/

theorem ite_bne_empty (s t : String) :
    (if s != "" then s else t) = if s = "" then t else s := by
  by_cases h : s = "" <;> simp [h]

/-- Refutation of C3 as stated: supplying a new name equal to the current
name changes no field value (the record is byte-identical apart from the
timestamp), yet Edit reports "updated", stamps `updated_at`, and
persists. -/
theorem edit_entry_unchanged_value_counterexample :
    (edit_entry_core ⟨2, [⟨1, "Gmail", "alice", "p1", "", "", "", "t0"⟩]⟩ 1
      "Gmail" "" "" "" "" "" "" "t1").res = EditResult.updated ∧
    (edit_entry_core ⟨2, [⟨1, "Gmail", "alice", "p1", "", "", "", "t0"⟩]⟩ 1
      "Gmail" "" "" "" "" "" "" "t1").saved = true ∧
    (edit_entry_core ⟨2, [⟨1, "Gmail", "alice", "p1", "", "", "", "t0"⟩]⟩ 1
      "Gmail" "" "" "" "" "" "" "t1").db.items =
      [⟨1, "Gmail", "alice", "p1", "", "", "", "t1"⟩] := by
  refine ⟨rfl, rfl, by decide⟩

/-- C3 (amended): Edit on a found record replaces exactly the fields whose
stripped input is non-empty (the password only behind a confirmed `y`
intent), leaves every other field byte-identical, keeps `next_id` and all
other records, and sets `updatedAt` and persists if and only if at least
one field was supplied non-empty — not "actually changed value": a
supplied value equal to the current one still counts as a change.  When
nothing is supplied it reports "unchanged" and does not persist. -/
theorem edit_blank_preserves (db : DB) (eid : Int) (it : Item)
    (hfind : find_by_id db eid = some it)
    (nameIn usernameIn pwAnswer pwIn authKeyIn websiteIn notesIn now : String) :
    ∃ l1 l2, db.items = l1 ++ it :: l2 ∧ (∀ x ∈ l1, x.id ≠ eid) ∧ it.id = eid ∧
      (pyStrip nameIn = "" → pyStrip usernameIn = "" →
        (if pyLower (pyStrip pwAnswer) == "y" then pyStrip pwIn else "") = "" →
        pyStrip authKeyIn = "" → pyStrip websiteIn = "" → pyStrip notesIn = "" →
        edit_entry_core db eid nameIn usernameIn pwAnswer pwIn authKeyIn
          websiteIn notesIn now = ⟨db, .noChanges, false⟩) ∧
      (¬(pyStrip nameIn = "" ∧ pyStrip usernameIn = "" ∧
          (if pyLower (pyStrip pwAnswer) == "y" then pyStrip pwIn else "") = "" ∧
          pyStrip authKeyIn = "" ∧ pyStrip websiteIn = "" ∧
          pyStrip notesIn = "") →
        (edit_entry_core db eid nameIn usernameIn pwAnswer pwIn authKeyIn
          websiteIn notesIn now).res = .updated ∧
        (edit_entry_core db eid nameIn usernameIn pwAnswer pwIn authKeyIn
          websiteIn notesIn now).saved = true ∧
        (edit_entry_core db eid nameIn usernameIn pwAnswer pwIn authKeyIn
          websiteIn notesIn now).db.next_id = db.next_id ∧
        (edit_entry_core db eid nameIn usernameIn pwAnswer pwIn authKeyIn
          websiteIn notesIn now).db.items = l1 ++
          ⟨it.id,
           if pyStrip nameIn = "" then it.name else pyStrip nameIn,
           if pyStrip usernameIn = "" then it.username else pyStrip usernameIn,
           if (if pyLower (pyStrip pwAnswer) == "y" then pyStrip pwIn else "")
             = "" then it.password
             else (if pyLower (pyStrip pwAnswer) == "y" then pyStrip pwIn
               else ""),
           if pyStrip authKeyIn = "" then it.auth_key else pyStrip authKeyIn,
           if pyStrip websiteIn = "" then it.website else pyStrip websiteIn,
           if pyStrip notesIn = "" then it.notes else pyStrip notesIn,
           now⟩ :: l2) := by
  obtain ⟨l1, l2, hsplit, hl1, ha⟩ := find?_split hfind
  refine ⟨l1, l2, hsplit, ?_, by simpa using ha, ?_, ?_⟩
  · intro x hx
    simpa using hl1 x hx
  · intro h1 h2 h3 h4 h5 h6
    rw [edit_entry_core, hfind]
    simp only [h1, h2, h3, h4, h5, h6]
    rfl
  · intro hc
    have hchanged : (pyStrip nameIn != "" || pyStrip usernameIn != "" ||
        (if pyLower (pyStrip pwAnswer) == "y" then pyStrip pwIn else "") != "" ||
        pyStrip authKeyIn != "" || pyStrip websiteIn != "" ||
        pyStrip notesIn != "") = true := by
      by_contra hfalse
      rw [Bool.not_eq_true] at hfalse
      simp only [Bool.or_eq_false_iff, bne_eq_false_iff_eq] at hfalse
      exact hc ⟨hfalse.1.1.1.1.1, hfalse.1.1.1.1.2, hfalse.1.1.1.2,
        hfalse.1.1.2, hfalse.1.2, hfalse.2⟩
    rw [edit_entry_core, hfind]
    simp only
    rw [hchanged]
    refine ⟨rfl, rfl, rfl, ?_⟩
    show updateFirst _ _ db.items = _
    rw [hsplit, updateFirst_append l2 hl1 ha]
    simp only [applyEdit, ite_bne_empty]

/-- Witness for the amended C3: supplying only a (padded) new name updates
the record. -/
theorem edit_blank_preserves_witness :
    (edit_entry_core ⟨2, [⟨1, "Gmail", "alice", "p1", "", "", "", "t0"⟩]⟩ 1
      " Work " "" "n" "zzz" "" "" "" "t1").res = EditResult.updated := by
  obtain ⟨l1, l2, h1, h2, h3, hno, hupd⟩ :=
    edit_blank_preserves ⟨2, [⟨1, "Gmail", "alice", "p1", "", "", "", "t0"⟩]⟩ 1
      ⟨1, "Gmail", "alice", "p1", "", "", "", "t0"⟩ (by decide)
      " Work " "" "n" "zzz" "" "" "" "t1"
  exact (hupd (by decide)).1

/-! ## C5: the login gate -/

theorem loginLoop_success {digest : String → String} {stored : String}
    {attempts : Nat → String} {i fuel j : Nat}
    (h : loginLoop digest stored attempts i fuel = .success j) :
    i ≤ j ∧ j < i + fuel ∧ digest (pyStrip (attempts j)) = stored ∧
      ∀ k, i ≤ k → k < j → digest (pyStrip (attempts k)) ≠ stored := by
  induction fuel generalizing i with
  | zero => simp [loginLoop] at h
  | succ n ih =>
    rw [loginLoop] at h
    by_cases hm : (digest (pyStrip (attempts i)) == stored) = true
    · rw [if_pos hm] at h
      injection h with h
      subst h
      exact ⟨le_refl _, by omega, by simpa using hm,
        fun k hk1 hk2 => absurd hk2 (not_lt.mpr hk1)⟩
    · rw [if_neg hm] at h
      obtain ⟨h1, h2, h3, h4⟩ := ih h
      refine ⟨by omega, by omega, h3, ?_⟩
      intro k hk1 hk2
      by_cases hk : k = i
      · subst hk
        simpa using hm
      · exact h4 k (by omega) hk2

theorem loginLoop_lockedOut {digest : String → String} {stored : String}
    {attempts : Nat → String} (i fuel : Nat)
    (h : ∀ k, i ≤ k → k < i + fuel → digest (pyStrip (attempts k)) ≠ stored) :
    loginLoop digest stored attempts i fuel = .lockedOut := by
  induction fuel generalizing i with
  | zero => rfl
  | succ n ih =>
    rw [loginLoop]
    rw [if_neg (by simpa using h i (le_refl i) (by omega))]
    exact ih (i + 1) (fun k hk1 hk2 => h k (by omega) (by omega))

theorem loginLoop_success_exists {digest : String → String} {stored : String}
    {attempts : Nat → String} (i fuel j : Nat)
    (hj : i ≤ j) (hlt : j < i + fuel)
    (hmatch : digest (pyStrip (attempts j)) = stored) :
    ∃ m, loginLoop digest stored attempts i fuel = .success m := by
  induction fuel generalizing i with
  | zero => omega
  | succ n ih =>
    rw [loginLoop]
    by_cases hm : (digest (pyStrip (attempts i)) == stored) = true
    · rw [if_pos hm]
      exact ⟨i, rfl⟩
    · rw [if_neg hm]
      have hne : j ≠ i := by
        intro hji
        subst hji
        exact hm (beq_iff_eq.mpr hmatch)
      exact ih (i + 1) (by omega) (by omega)

theorem main_db_file_of_lockedOut {digest : String → String} {cfg : Cfg}
    {attempts : Nat → String}
    (h : login digest cfg attempts = .lockedOut) (dbFile : FileState) :
    main_db_file digest cfg attempts dbFile = some dbFile := by
  rw [main_db_file, h]

/-- C5: with a stored (non-empty) master hash, `login` succeeds exactly
when one of the first three entered secrets has the stored digest — and
then at the first such attempt; when all three attempts mismatch it
reports the lockout (`sys.exit(1)`), and the whole `main` sequence then
leaves the store file untouched (no further store access). -/
theorem login_gate_correct (digest : String → String) (stored : String)
    (hstored : stored ≠ "") (attempts : Nat → String) :
    ((∃ i, login digest ⟨some stored⟩ attempts = .success i) ↔
      (∃ i, i < 3 ∧ digest (pyStrip (attempts i)) = stored)) ∧
    (∀ i, login digest ⟨some stored⟩ attempts = .success i →
      i < 3 ∧ digest (pyStrip (attempts i)) = stored ∧
      ∀ j, j < i → digest (pyStrip (attempts j)) ≠ stored) ∧
    ((∀ i, i < 3 → digest (pyStrip (attempts i)) ≠ stored) →
      login digest ⟨some stored⟩ attempts = .lockedOut ∧
      ∀ dbFile, main_db_file digest ⟨some stored⟩ attempts dbFile =
        some dbFile) := by
  have hlogin : login digest ⟨some stored⟩ attempts =
      loginLoop digest stored attempts 0 3 := by
    show (if (stored == "") = true then LoginResult.noMaster
      else loginLoop digest stored attempts 0 3) = _
    rw [beq_eq_false_iff_ne.mpr hstored]
    rfl
  refine ⟨?_, ?_, ?_⟩
  · rw [hlogin]
    constructor
    · rintro ⟨i, hi⟩
      obtain ⟨h1, h2, h3, h4⟩ := loginLoop_success hi
      exact ⟨i, by omega, h3⟩
    · rintro ⟨i, hlt, hm⟩
      exact loginLoop_success_exists 0 3 i (by omega) (by omega) hm
  · intro i hi
    rw [hlogin] at hi
    obtain ⟨h1, h2, h3, h4⟩ := loginLoop_success hi
    exact ⟨by omega, h3, fun j hj => h4 j (by omega) hj⟩
  · intro hall
    have hlock : login digest ⟨some stored⟩ attempts = .lockedOut := by
      rw [hlogin]
      exact loginLoop_lockedOut 0 3 (fun k hk1 hk2 => hall k (by omega))
    exact ⟨hlock, fun dbFile => main_db_file_of_lockedOut hlock dbFile⟩

/-- Witness for C5: three wrong attempts lock out and leave the (absent)
store file untouched. -/
theorem login_gate_correct_witness :
    login (fun s => s) ⟨some "pw"⟩ (fun _ => "bad") = LoginResult.lockedOut ∧
    main_db_file (fun s => s) ⟨some "pw"⟩ (fun _ => "bad") FileState.absent =
      some FileState.absent := by
  have h := (login_gate_correct (fun s => s) "pw" (by decide)
    (fun _ => "bad")).2.2 (fun i _ => by decide)
  exact ⟨h.1, h.2 FileState.absent⟩

/-! ## C9: whitespace stripping -/

theorem head?_dropWhile_false (p : Char → Bool) (l : List Char) (c : Char)
    (h : (l.dropWhile p).head? = some c) : p c = false := by
  induction l with
  | nil => simp [List.dropWhile] at h
  | cons a as ih =>
    rw [List.dropWhile_cons] at h
    split at h
    · exact ih h
    · injection h with h
      subst h
      rename_i hp
      simpa using hp

theorem getLast?_dropWhile (p : Char → Bool) (l : List Char)
    (h : l.dropWhile p ≠ []) : (l.dropWhile p).getLast? = l.getLast? := by
  conv_rhs => rw [← List.takeWhile_append_dropWhile p l]
  rw [List.getLast?_append_of_ne_nil _ h]

theorem pyStrip_noEdge (s : String) : noEdgeWhitespace (pyStrip s) := by
  cases s with
  | mk l =>
    constructor
    · intro c hc
      have hc1 : (((l.dropWhile Char.isWhitespace).reverse.dropWhile
          Char.isWhitespace).reverse).head? = some c := hc
      rw [List.head?_reverse] at hc1
      have hne : (l.dropWhile Char.isWhitespace).reverse.dropWhile
          Char.isWhitespace ≠ [] := by
        intro hnil
        rw [hnil] at hc1
        exact Option.noConfusion hc1
      rw [getLast?_dropWhile _ _ hne, List.getLast?_reverse] at hc1
      intro hw
      rw [head?_dropWhile_false Char.isWhitespace l c hc1] at hw
      exact Bool.false_ne_true hw
    · intro c hc
      have hc1 : (((l.dropWhile Char.isWhitespace).reverse.dropWhile
          Char.isWhitespace).reverse).getLast? = some c := hc
      rw [List.getLast?_reverse] at hc1
      intro hw
      rw [head?_dropWhile_false Char.isWhitespace _ c hc1] at hw
      exact Bool.false_ne_true hw

theorem pyStrip_all_whitespace {s : String}
    (h : ∀ c ∈ s.data, c.isWhitespace) : pyStrip s = "" := by
  cases s with
  | mk l =>
    show (⟨((l.dropWhile Char.isWhitespace).reverse.dropWhile
      Char.isWhitespace).reverse⟩ : String) = ""
    have h1 : l.dropWhile Char.isWhitespace = [] :=
      List.dropWhile_eq_nil_iff.mpr h
    rw [h1]
    rfl

/-- C9: every text field value stored by Add is the stripped input (so a
whitespace-only input is stored as the empty string); stripping never
leaves leading or trailing whitespace, so no stored text field starts or
ends with whitespace, and Add and Edit both preserve that store-wide
property; an Edit whose text inputs are all whitespace-only changes
nothing and does not persist; and both registration and login strip the
entered master secret before hashing it. -/
theorem whitespace_stripped :
    (∀ db nameIn usernameIn passwordIn authKeyIn websiteIn notesIn now,
      (add_entry db nameIn usernameIn passwordIn authKeyIn websiteIn notesIn
        now).db.items = db.items ++
        [⟨db.next_id, pyStrip nameIn, pyStrip usernameIn, pyStrip passwordIn,
          pyStrip authKeyIn, pyStrip websiteIn, pyStrip notesIn, now⟩]) ∧
    (∀ s, noEdgeWhitespace (pyStrip s)) ∧
    (∀ s : String, (∀ c ∈ s.data, c.isWhitespace) → pyStrip s = "") ∧
    (∀ db, trimInv db →
      ∀ nameIn usernameIn passwordIn authKeyIn websiteIn notesIn now,
      trimInv (add_entry db nameIn usernameIn passwordIn authKeyIn websiteIn
        notesIn now).db) ∧
    (∀ db, trimInv db →
      ∀ eid nameIn usernameIn pwAnswer pwIn authKeyIn websiteIn notesIn now,
      trimInv (edit_entry_core db eid nameIn usernameIn pwAnswer pwIn authKeyIn
        websiteIn notesIn now).db) ∧
    (∀ db eid nameIn usernameIn pwAnswer pwIn authKeyIn websiteIn notesIn now,
      (∀ c ∈ nameIn.data, c.isWhitespace) →
      (∀ c ∈ usernameIn.data, c.isWhitespace) →
      (∀ c ∈ pwAnswer.data, c.isWhitespace) →
      (∀ c ∈ authKeyIn.data, c.isWhitespace) →
      (∀ c ∈ websiteIn.data, c.isWhitespace) →
      (∀ c ∈ notesIn.data, c.isWhitespace) →
      (edit_entry_core db eid nameIn usernameIn pwAnswer pwIn authKeyIn
        websiteIn notesIn now).db = db ∧
      (edit_entry_core db eid nameIn usernameIn pwAnswer pwIn authKeyIn
        websiteIn notesIn now).saved = false) ∧
    (∀ digest entries h, registerLoop digest entries = some h →
      ∃ e ∈ entries, pyStrip e.1 ≠ "" ∧ h = digest (pyStrip e.1)) ∧
    (∀ (digest : String → String) stored attempts i fuel j,
      loginLoop digest stored attempts i fuel = .success j →
      digest (pyStrip (attempts j)) = stored) := by
  refine ⟨fun _ _ _ _ _ _ _ _ => rfl, pyStrip_noEdge,
    fun s h => pyStrip_all_whitespace h, ?_, ?_, ?_, ?_, ?_⟩
  · intro db hdb n u p a w no t it hit
    rcases List.mem_append.mp hit with hit | hit
    · exact hdb it hit
    · rw [List.mem_singleton] at hit
      subst hit
      exact ⟨pyStrip_noEdge n, pyStrip_noEdge u, pyStrip_noEdge p,
        pyStrip_noEdge a, pyStrip_noEdge w, pyStrip_noEdge no⟩
  · intro db hdb eid n u pa p a w no t it hit
    rcases mem_edit_items hit with hmem | ⟨pw, y, hpw, hy, rfl⟩
    · exact hdb it hmem
    · obtain ⟨hn1, hn2, hn3, hn4, hn5, hn6⟩ := hdb y hy
      have hpwE : noEdgeWhitespace pw := by
        rcases hpw with rfl | rfl
        · exact pyStrip_noEdge p
        · exact ⟨fun c hc => by simp at hc, fun c hc => by simp at hc⟩
      refine ⟨?_, ?_, ?_, ?_, ?_, ?_⟩ <;>
        simp only [applyEdit] <;> split <;>
        first
          | exact pyStrip_noEdge _
          | exact hpwE
          | assumption
  · intro db eid n u pa p a w no t hn hu hpa ha hw hno
    have h1 : pyStrip n = "" := pyStrip_all_whitespace hn
    have h2 : pyStrip u = "" := pyStrip_all_whitespace hu
    have h3 : pyStrip pa = "" := pyStrip_all_whitespace hpa
    have h4 : pyStrip a = "" := pyStrip_all_whitespace ha
    have h5 : pyStrip w = "" := pyStrip_all_whitespace hw
    have h6 : pyStrip no = "" := pyStrip_all_whitespace hno
    have hpw : (pyLower (pyStrip pa) == "y") = false := by
      rw [h3]
      rfl
    rw [edit_entry_core]
    cases hf : find_by_id db eid with
    | none => exact ⟨rfl, rfl⟩
    | some x =>
      simp only
      rw [hpw, h1, h2, h4, h5, h6]
      exact ⟨rfl, rfl⟩
  · intro digest entries
    induction entries with
    | nil =>
      intro h hh
      simp [registerLoop] at hh
    | cons e rest ih =>
      obtain ⟨e1, e2⟩ := e
      intro h hh
      rw [registerLoop] at hh
      split at hh
      · obtain ⟨e', he', hne, heq⟩ := ih h hh
        exact ⟨e', List.mem_cons_of_mem _ he', hne, heq⟩
      · split at hh
        · obtain ⟨e', he', hne, heq⟩ := ih h hh
          exact ⟨e', List.mem_cons_of_mem _ he', hne, heq⟩
        · injection hh with hh
          rename_i hnempty hmatch
          exact ⟨(e1, e2), List.mem_cons_self _ _, by simpa using hnempty,
            hh.symm⟩
  · intro digest stored attempts i fuel j h
    exact (loginLoop_success h).2.2.1

/-- Witness for C9: a whitespace-only string strips to empty. -/
theorem whitespace_stripped_witness : pyStrip " \t " = "" :=
  whitespace_stripped.2.2.1 " \t " (by decide)

/-! ## C1: identifier monotonicity -/

theorem runOp_next_id_le (db : DB) (op : Op) :
    db.next_id ≤ (runOp db op).next_id := by
  cases op with
  | add n u p a w no t =>
    show db.next_id ≤ db.next_id + 1
    omega
  | del eid c =>
    exact le_of_eq (delete_entry_core_next_id db eid c).symm

theorem runOps_next_id_le (db : DB) (ops : List Op) :
    db.next_id ≤ (runOps db ops).next_id := by
  induction ops generalizing db with
  | nil => exact le_refl _
  | cons op ops ih => exact le_trans (runOp_next_id_le db op) (ih _)

theorem assignedIds_lb (db : DB) (ops : List Op) :
    ∀ j ∈ assignedIds db ops, db.next_id ≤ j := by
  induction ops generalizing db with
  | nil =>
    intro j hj
    simp [assignedIds] at hj
  | cons op ops ih =>
    intro j hj
    cases op with
    | add n u p a w no t =>
      simp only [assignedIds] at hj
      rcases List.mem_cons.mp hj with rfl | hj
      · exact le_refl _
      · have h1 := ih _ j hj
        have h2 : db.next_id + 1 ≤ j := h1
        omega
    | del eid c =>
      simp only [assignedIds] at hj
      have h1 := ih _ j hj
      rw [delete_entry_core_next_id] at h1
      exact h1

theorem assignedIds_pairwise (db : DB) (ops : List Op) :
    (assignedIds db ops).Pairwise (· < ·) := by
  induction ops generalizing db with
  | nil => simp [assignedIds]
  | cons op ops ih =>
    cases op with
    | add n u p a w no t =>
      simp only [assignedIds]
      refine List.Pairwise.cons ?_ (ih _)
      intro j hj
      have h1 := assignedIds_lb _ ops j hj
      have h2 : db.next_id + 1 ≤ j := h1
      show db.next_id < j
      omega
    | del eid c =>
      simp only [assignedIds]
      exact ih _

theorem storeInv_runOps (db : DB) (hInv : storeInv db) (ops : List Op) :
    storeInv (runOps db ops) := by
  induction ops generalizing db with
  | nil => exact hInv
  | cons op ops ih =>
    rw [runOps]
    apply ih
    cases op with
    | add n u p a w no t => exact storeInv_add hInv n u p a w no t
    | del eid c => exact storeInv_delete hInv eid c

/-- C1: starting from the store `Load` builds out of an absent, empty, or
unparsable backing file, the identifiers assigned by the adds of any
Add/Delete sequence are strictly increasing — each new id exceeds every
previously assigned id — and an id that a Delete removes (one present in
the store at that point) is never assigned by any later Add. -/
theorem identifier_monotonicity :
    (∀ f, (f = FileState.absent ∨ f = FileState.empty ∨
        f = FileState.unparsable) →
      loadTyped f = some (freshDB, FileState.parsed freshJson)) ∧
    (∀ ops, (assignedIds freshDB ops).Pairwise (· < ·)) ∧
    (∀ pre i c post, (∃ it ∈ (runOps freshDB pre).items, it.id = i) →
      i ∉ assignedIds (runOps freshDB pre) (Op.del i c :: post)) := by
  refine ⟨?_, fun ops => assignedIds_pairwise freshDB ops, ?_⟩
  · intro f h
    rcases h with h | h | h <;> subst h <;> rfl
  · rintro pre i c post ⟨it, hit, rfl⟩
    intro hmem
    have hInv : storeInv (runOps freshDB pre) :=
      storeInv_runOps freshDB storeInv_fresh pre
    have hlt : it.id < (runOps freshDB pre).next_id := hInv it hit
    simp only [assignedIds] at hmem
    have hle := assignedIds_lb _ post it.id hmem
    rw [delete_entry_core_next_id] at hle
    omega

/-- Witness for C1, the spec's concrete scenario: after two adds (ids 1
and 2) and a confirmed delete of id 1, no later add ever reassigns 1. -/
theorem identifier_monotonicity_witness :
    (1 : Int) ∉ assignedIds (runOps freshDB
        [Op.add "Gmail" "alice" "p1" "" "" "" "t1",
         Op.add "b" "" "" "" "" "" "t2"])
      (Op.del 1 "y" :: [Op.add "c" "" "" "" "" "" "t3"]) :=
  identifier_monotonicity.2.2
    [Op.add "Gmail" "alice" "p1" "" "" "" "t1", Op.add "b" "" "" "" "" "" "t2"]
    1 "y" [Op.add "c" "" "" "" "" "" "t3"]
    ⟨⟨1, "Gmail", "alice", "p1", "", "", "", "t1"⟩, by decide, rfl⟩

end PasswordManager
